import Mathlib

/-!
# Futakotamagawa Rise tracker — verification development

Shallow embedding of the two core subsystems of the repository:

* `src/scraper.py` — the BFS link-discovery crawler
  (`extract_property_id`, `discover_related_properties`,
  `auto_discover_properties`) and the admission filter in `main`;
* `src/price_tracker.py` — the change-tracking ledger
  (`load_previous_data`, `save_current_data`, `detect_changes`).

Conventions of the embedding:

* Python `dict`s holding listing data become Lean structures whose fields are
  `Option`-typed when the corresponding key may be absent (`prop.get(k)`
  returning `None` is `none`).
* The persisted ledger (`price_tracker.json`) is an association list
  `List (String × LedgerEntry)`; Python `k in d` is `(lookup k).isSome`.
* Python floats (`area`, derived unit prices, `change_rate`) are modelled as
  exact rationals `ℚ`; the claims checked here only involve comparisons and
  field-level arithmetic identities.
* File access is explicit: the content of `price_tracker.json` is a
  `FileContent` value, and tracker operations additionally return the list of
  file-system events they perform.
* Exceptions are explicit: the network/parse layer is a parameter
  `fetch : String → Except String Page`; a raised exception is `.error`, and a
  Python `try/except` is the corresponding `match`.  A loop body that can raise
  an uncaught `TypeError` (as the statistics line of `save_current_data` can) is a
  function into `Option`, with `none` for the crash.
-/

namespace RiseTracker

/-! ## String utilities shared by the scraper -/

/-- Base `https://www.livable.co.jp`, the prefix prepended by the scraper when it
normalizes relative URLs and hrefs. -/
def baseUrl : String := "https://www.livable.co.jp"

/-- Python `s.startswith(pre)`, computed on the character lists (the library
`String.startsWith` is extensionally the same but does not reduce in proofs). -/
def strStartsWith (s pre : String) : Bool :=
  pre.toList.isPrefixOf s.toList

/-- Python `if not u.startswith("http"): u = base + u` — the URL normalization applied
to queue elements (scraper.py lines 55-56 and 118-119). -/
def normalizeUrl (u : String) : String :=
  if strStartsWith u "http" then u else baseUrl ++ u

/-- Python `if href.startswith("/"): href = base + href` — the href normalization
applied to extracted links (scraper.py lines 81-82 and 92-93). -/
def absHref (href : String) : String :=
  if strStartsWith href "/" then baseUrl ++ href else href

/-- Characters matched by the regex class `[A-Z0-9]`. -/
def idChar (c : Char) : Bool := c.isUpper || c.isDigit

/-- Attempt to match the regex `/mansion/(C[A-Z0-9]+)/?` at the start of `cs`,
returning the captured group.  The trailing `/?` never affects the group. -/
def matchIdAt (cs : List Char) : Option String :=
  if "/mansion/C".toList.isPrefixOf cs then
    let run := (cs.drop 10).takeWhile idChar
    if run.isEmpty then none else some (String.mk ('C' :: run))
  else none

/-- `re.search` semantics: try `matchIdAt` at each position, left to right. -/
def searchIdAux : List Char → Option String
  | [] => none
  | c :: cs =>
    match matchIdAt (c :: cs) with
    | some r => some r
    | none => searchIdAux cs

/-- Function `extract_property_id` (scraper.py lines 45-50):
`re.search` of the pattern `/mansion/(C[A-Z0-9]+)/?`, group 1, else `None`. -/
def extract_property_id (url : String) : Option String :=
  searchIdAux url.toList

/-- Python substring test `pat in s`, over the character list of `s`. -/
def hasSubAux (pat : List Char) : List Char → Bool
  | [] => pat.isEmpty
  | c :: cs => pat.isPrefixOf (c :: cs) || hasSubAux pat cs

/-- Python `pat in s` for strings. -/
def strContains (s pat : String) : Bool :=
  hasSubAux pat.toList s.toList

/-- Python `url.rstrip("/")` — drop trailing `/` characters. -/
def rstripSlash (s : String) : String :=
  String.mk ((s.toList.reverse.dropWhile (fun c => c = '/')).reverse)

/-- Helper for the last element of `split("/")`: the segment after the last `/`. -/
def lastSegAux (acc : List Char) : List Char → List Char
  | [] => acc
  | c :: cs => if c = '/' then lastSegAux [] cs else lastSegAux (acc ++ [c]) cs

/-- Python `url.rstrip("/").split("/")[-1]` — how `scrape_property` derives `kanri_no`
from a URL (scraper.py lines 168 and 327). -/
def lastSegment (s : String) : String :=
  String.mk (lastSegAux [] (rstripSlash s).toList)

/-! ## Discovery crawler (scraper.py) -/

/-- The fetched-and-parsed content of one listing page, reduced to what
`discover_related_properties` inspects: the hrefs of the anchors found under
the「他の物件」headings (`sectionLinks`, already matched against
`/mansion/C[A-Z0-9]+` by `find_all`), and the hrefs of all matching anchors on
the page (`allLinks`, the fallback scan). -/
structure Page where
  sectionLinks : List String
  allLinks : List String
deriving DecidableEq

/-- Substrings whose presence excludes an href in the fallback scan
(scraper.py line 90). -/
def excludedPatterns : List String :=
  ["mailto:", "javascript:", "line.me", "twitter.com", "facebook.com"]

/-- The link-collection logic of the `try` block of `discover_related_properties`
(scraper.py lines 69-97): use the heading-section links if any survive the
check `"/mansion/C" in href`, otherwise fall back to a whole-page scan that
drops excluded hrefs and the URL of the page itself. -/
def extractLinks (page : Page) (property_url : String) : List String :=
  let fromSections := page.sectionLinks.filterMap (fun href =>
    if href ≠ "" ∧ strContains href "/mansion/C" then some (absHref href) else none)
  if fromSections.isEmpty then
    page.allLinks.filterMap (fun href =>
      if href = "" then none
      else if excludedPatterns.any (fun pat => strContains href pat) then none
      else
        let h := absHref href
        if h = property_url then none else some h)
  else fromSections

/-- Function `discover_related_properties` (scraper.py lines 53-100).  `fetch` models
`requests.get` + `raise_for_status` + `BeautifulSoup`; an `.error` is any
exception raised inside the `try` block (network failure, parse failure).
Returns the related-link list together with the updated `visited` set.
`list(set(...))` is modelled by `List.dedup`. -/
def discover_related_properties (fetch : String → Except String Page)
    (property_url : String) (visited : List String) :
    List String × List String :=
  let url := normalizeUrl property_url
  match extract_property_id url with
  | none => ([], visited)
  | some _ =>
    if url ∈ visited then ([], visited)
    else
      let visited' := url :: visited
      match fetch url with
      | .error _ => ([], visited')
      | .ok page => ((extractLinks page url).dedup, visited')

/-- The `while queue:` loop of `auto_discover_properties` (scraper.py lines
115-135), with explicit fuel: `none` means the fuel ran out before the queue
drained.  State: queue, visited, discovered (both sets as lists, membership
checked as Python `in`). -/
def autoDiscoverFuel (fetch : String → Except String Page) :
    Nat → List String → List String → List String → Option (List String)
  | 0, [], _, discovered => some discovered
  | 0, _ :: _, _, _ => none
  | _ + 1, [], _, discovered => some discovered
  | fuel + 1, u :: rest, visited, discovered =>
    let url := normalizeUrl u
    match extract_property_id url with
    | none => autoDiscoverFuel fetch fuel rest visited discovered
    | some _ =>
      if url ∈ discovered then autoDiscoverFuel fetch fuel rest visited discovered
      else
        let discovered' := url :: discovered
        let rv := discover_related_properties fetch url visited
        autoDiscoverFuel fetch fuel (rest ++ rv.1.filter (fun l => l ∉ discovered'))
          rv.2 discovered'

/-- Function `auto_discover_properties` (scraper.py lines 103-141), started from the
seed queue with empty `visited`/`discovered`.  The Python function returns
`sorted(list(discovered))`; the sort is presentational, so the embedding
returns the discovered set as a list. -/
def auto_discover_properties (fetch : String → Except String Page)
    (seeds : List String) (fuel : Nat) : Option (List String) :=
  autoDiscoverFuel fetch fuel seeds [] []

/-! ## Data model of the change-tracking ledger (price_tracker.py) -/

/-- One element of the `history` list of a ledger entry — the dict appended at
price_tracker.py lines 61-67.  All five keys are always present; their values
may be `None` (key absent in the scraped record). -/
structure HistoryPoint where
  date : String
  price : Option Int := none
  price_per_sqm : Option ℚ := none
  price_per_tsubo : Option ℚ := none
  area : Option ℚ := none
deriving DecidableEq

/-- One value of the persisted tracker store — the dict built at
price_tracker.py lines 72-85. -/
structure LedgerEntry where
  history : List HistoryPoint := []
  first_seen : String := ""
  initial_price : Option Int := none
  current_price : Option Int := none
  current_area : Option ℚ := none
  max_price : Option Int := none
  min_price : Option Int := none
  total_change : Int := 0
  building : Option String := none
  floor : Option String := none
  madori : Option String := none
  staff : Option String := none
deriving DecidableEq

/-- The persisted store `price_tracker.json`: a dict `kanri_no → entry`,
modelled as an association list (`lookup` = Python key access, key test
`k in d` = `(lookup k).isSome`). -/
abbrev Ledger := List (String × LedgerEntry)

/-- A scraped property dict as produced by `scrape_property` (scraper.py lines
154-327) and consumed by the tracker.  `none` models an absent key; the error
branch at line 327 produces a record with only `url`, `kanri_no` and `error`
set. -/
structure Record where
  url : String := ""
  kanri_no : Option String := none
  price : Option Int := none
  area : Option ℚ := none
  price_per_sqm : Option ℚ := none
  price_per_tsubo : Option ℚ := none
  madori : Option String := none
  building : Option String := none
  floor : Option String := none
  built : Option String := none
  direction : Option String := none
  reform : Option String := none
  favorite_count : Option Int := none
  staff : Option String := none
  error : Option String := none
deriving DecidableEq

/-- The guard shared by `save_current_data` (lines 42-47) and `detect_changes`
(lines 128-133): skip a record if `"error" in prop`, then skip unless
`prop.get("kanri_no")` is truthy (present and non-empty).  Returns the id the
tracker will use, or `none` when the record is skipped. -/
def okId (p : Record) : Option String :=
  if p.error.isSome then none
  else
    match p.kanri_no with
    | none => none
    | some s => if s = "" then none else some s

/-- Python truthiness of an optional integer: `None` and `0` are falsy. -/
def truthyOptInt : Option Int → Bool
  | some v => v ≠ 0
  | none => false

/-! ## ChangeSet structures (the dict returned by `detect_changes`) -/

/-- An element of the `price_changes` list (price_tracker.py lines 146-156). -/
structure PriceChange where
  kanri_no : String
  building : Option String := none
  floor : Option String := none
  madori : Option String := none
  area : Option ℚ := none
  before : Int
  after : Int
  change_amount : Int
  change_rate : ℚ
deriving DecidableEq

/-- An element of the `new_properties` list (lines 174-182). -/
structure NewProperty where
  kanri_no : String
  price : Option Int := none
  area : Option ℚ := none
  building : Option String := none
  floor : Option String := none
  madori : Option String := none
  price_per_tsubo : Option ℚ := none
deriving DecidableEq

/-- An element of the `ended_properties` list (lines 187-193). -/
structure EndedProperty where
  kanri_no : String
  building : Option String := none
  floor : Option String := none
  madori : Option String := none
  final_price : Option Int := none
deriving DecidableEq

/-- An element of the `staff_changes` list (lines 165-171). -/
structure StaffChange where
  kanri_no : String
  building : Option String := none
  floor : Option String := none
  before : String
  after : String
deriving DecidableEq

/-- The dict built at price_tracker.py lines 118-124: exactly the five keys
`price_changes`, `new_properties`, `ended_properties`, `reform_changes`,
`staff_changes`.  Nothing in the module ever appends to `reform_changes`
(the commented-out block at lines 158-159), so its element type is opaque. -/
structure Changes where
  price_changes : List PriceChange
  new_properties : List NewProperty
  ended_properties : List EndedProperty
  reform_changes : List Unit
  staff_changes : List StaffChange
deriving DecidableEq

/-- The empty change set the loops start from (lines 118-124). -/
def emptyChanges : Changes := ⟨[], [], [], [], []⟩

/-! ## detect_changes -/

/-- One iteration of the main loop of `detect_changes` (price_tracker.py lines
127-182): price change when both prices are truthy and differ, staff change
when both staff names are truthy and differ, new property when the id is not
in the previous store. -/
def processRecord (previous : Ledger) (acc : Changes) (p : Record) : Changes :=
  match okId p with
  | none => acc
  | some k =>
    match previous.lookup k with
    | some prev_data =>
      let acc1 :=
        match p.price, prev_data.current_price with
        | some after, some before =>
          if after ≠ 0 ∧ before ≠ 0 ∧ after ≠ before then
            { acc with price_changes := acc.price_changes ++
                [{ kanri_no := k, building := p.building, floor := p.floor,
                   madori := p.madori, area := p.area,
                   before := before, after := after,
                   change_amount := after - before,
                   change_rate := (((after : ℚ) - (before : ℚ)) / (before : ℚ)) * 100 }] }
          else acc
        | _, _ => acc
      match p.staff, prev_data.staff with
      | some cur_staff, some prev_staff =>
        if cur_staff ≠ "" ∧ prev_staff ≠ "" ∧ cur_staff ≠ prev_staff then
          { acc1 with staff_changes := acc1.staff_changes ++
              [{ kanri_no := k, building := p.building, floor := p.floor,
                 before := prev_staff, after := cur_staff }] }
        else acc1
      | _, _ => acc1
    | none =>
      { acc with new_properties := acc.new_properties ++
          [{ kanri_no := k, price := p.price, area := p.area,
             building := p.building, floor := p.floor, madori := p.madori,
             price_per_tsubo := p.price_per_tsubo }] }

/-- The ended-property loop (lines 185-193): one entry per id in
`previous_ids - current_ids`.  Python iterates a hash set here; the embedding
iterates the (deduplicated) key order of the previous store, which fixes one of the
admissible orders without changing the set of entries. -/
def endedList (previous : Ledger) (current_ids : List String) : List EndedProperty :=
  ((previous.map Prod.fst).dedup.filter (fun k => k ∉ current_ids)).filterMap
    (fun k => (previous.lookup k).map (fun prev_data =>
      { kanri_no := k, building := prev_data.building, floor := prev_data.floor,
        madori := prev_data.madori, final_price := prev_data.current_price }))

/-- The body of `detect_changes` after `previous` has been loaded
(price_tracker.py lines 114-195): a pure function of the current records and
the previous store. -/
def detect_changes_pure (current_properties : List Record) (previous : Ledger) :
    Changes :=
  let current_ids := current_properties.filterMap okId
  let c := current_properties.foldl (processRecord previous) emptyChanges
  { c with ended_properties := endedList previous current_ids }

/-! ## File access -/

/-- The state of `price_tracker.json` as `load_previous_data` can find it:
absent, unreadable/corrupt (any exception from `open`/`json.load`), or a
well-formed store. -/
inductive FileContent where
  | missing
  | corrupt
  | good (ledger : Ledger)
deriving DecidableEq

/-- A file-system / console event performed by a tracker operation. -/
inductive FsEvent where
  | fileRead
  | warnPrint
  | fileWrite
deriving DecidableEq

/-- Function `load_previous_data` (price_tracker.py lines 24-34): an absent file yields
`{}`; a corrupt file prints a warning (`前回データの読み込みに失敗`) and
yields `{}`; otherwise the parsed store is returned.  Every call touches the
file system (`os.path.exists` / `open`). -/
def load_previous_data : FileContent → Ledger × List FsEvent
  | .missing => ([], [.fileRead])
  | .corrupt => ([], [.fileRead, .warnPrint])
  | .good ledger => (ledger, [.fileRead])

/-- Function `detect_changes` (price_tracker.py lines 99-195) as the source has it: its
only parameter is the current record list; the previous store is obtained by
reading the persisted file.  Returns the change set and the file-system events
performed. -/
def detect_changes (current_properties : List Record) (fs : FileContent) :
    Changes × List FsEvent :=
  let lp := load_previous_data fs
  (detect_changes_pure current_properties lp.1, lp.2)

/-! ## save_current_data -/

/-- The history update of `save_current_data` (price_tracker.py lines 49-67):
take the history of the existing entry (empty for a new id) and append the
point of today unless the last existing point already carries the date of today. -/
def historyFor (previous : Ledger) (today : String) (p : Record) (k : String) :
    List HistoryPoint :=
  let history :=
    match previous.lookup k with
    | some e => e.history
    | none => []
  let pt : HistoryPoint :=
    { date := today, price := p.price, price_per_sqm := p.price_per_sqm,
      price_per_tsubo := p.price_per_tsubo, area := p.area }
  match history.getLast? with
  | none => history ++ [pt]
  | some h => if h.date ≠ today then history ++ [pt] else history

/-- The entry built for one record by `save_current_data` (lines 69-85).
Returns `none` for the run-aborting `TypeError` Python raises in the
`total_change` line when the price of `history[0]` is `None` (`int - None`); the
`history.head? = none` branch is unreachable because the history is never
empty at this point. -/
def entryFor (previous : Ledger) (today : String) (p : Record) (k : String) :
    Option LedgerEntry :=
  let history := historyFor previous today p k
  let prices := history.filterMap (fun h => if truthyOptInt h.price then h.price else none)
  match history.head? with
  | none => none
  | some h0 =>
    match h0.price with
    | none => none
    | some ip =>
      some { history := history,
             first_seen := h0.date,
             initial_price := h0.price,
             current_price := p.price,
             current_area := p.area,
             max_price := prices.max?,
             min_price := prices.min?,
             total_change := p.price.getD 0 - ip,
             building := p.building, floor := p.floor,
             madori := p.madori, staff := p.staff }

/-- Assignment `tracker_data[kanri_no] = entry` on the association list: replace in place
if the key exists, else append (Python dict assignment). -/
def upsert (l : Ledger) (k : String) (v : LedgerEntry) : Ledger :=
  if (l.lookup k).isSome then
    l.map (fun kv => if kv.1 = k then (k, v) else kv)
  else l ++ [(k, v)]

/-- One iteration of the loop of `save_current_data` (lines 41-85): skip error
records and records without a truthy id, otherwise store the rebuilt entry. -/
def saveStep (previous : Ledger) (today : String) (td : Ledger) (p : Record) :
    Option Ledger :=
  match okId p with
  | none => some td
  | some k =>
    match entryFor previous today p k with
    | none => none
    | some v => some (upsert td k v)

/-- Function `save_current_data` (price_tracker.py lines 36-97): rebuild `tracker_data`
from scratch over the current records and persist it.  `previous` is the
content the repeated in-loop `load_previous_data()` calls observe (constant for
the whole loop, since the file is only written after it); `today` is
`datetime.now().strftime` of `%Y-%m-%d`.  The result is the new persisted store;
`none` models the uncaught `TypeError` described at `entryFor`. -/
def save_current_data (properties : List Record) (previous : Ledger)
    (today : String) : Option Ledger :=
  properties.foldlM (saveStep previous today) []

/-! ## Admission filter (scraper.py main, lines 425-453) -/

/-- Constant `MIN_AREA` (scraper.py line 34). -/
def MIN_AREA : ℚ := 0

/-- Constant `MAX_AREA` (scraper.py line 35). -/
def MAX_AREA : ℚ := 999

/-- The cluster-membership tags checked at scraper.py line 440. -/
def riseBuildings : List String := ["イースト", "ウエスト", "セントラル"]

/-- The admission predicate of the filter loop (scraper.py lines 433-448):
a record passes iff it has an `area` key, `MIN_AREA <= area < MAX_AREA`, and
`property_data.get("building", "")` is one of the cluster tags. -/
def admitRecord (p : Record) : Bool :=
  match p.area with
  | none => false
  | some area =>
    if MIN_AREA ≤ area ∧ area < MAX_AREA then
      riseBuildings.contains (p.building.getD "")
    else false

/-- The record `scrape_property` returns when its `try` block raises
(scraper.py line 327): only `url`, `kanri_no` and `error` are set. -/
def errorRecord (url msg : String) : Record :=
  { url := url, kanri_no := some (lastSegment url), error := some msg }

/-- List `filtered_properties` (scraper.py lines 425-453): the admitted records, in
scrape order. -/
def filterProperties (recs : List Record) : List Record :=
  recs.filter admitRecord

/-- Assignment `properties = filtered_properties` — the record list handed to
`detect_changes` and `save_current_data` in auto-discover mode (line 453). -/
def mainProperties (urls : List String) (scrape : String → Record) : List Record :=
  filterProperties (urls.map scrape)

/-- Count `total_discovered = len(all_urls)` (scraper.py line 527): rejected records
still count toward the discovery total. -/
def totalDiscovered (urls : List String) : Nat := urls.length

/-! ## Per-record views of the detect_changes loop

The loop of `detect_changes` appends at most one element per record to each of
`price_changes`, `staff_changes` and `new_properties`.  The three functions
below give that contribution record by record; a lemma proves the loop equal
to their `filterMap`s. -/

/-- The `price_changes` entry contributed by one record: present exactly when
the id is tracked and both prices are truthy (defined and nonzero) and differ
(price_tracker.py lines 139-156). -/
def priceChangeOf (previous : Ledger) (p : Record) : Option PriceChange :=
  match okId p with
  | none => none
  | some k =>
    match previous.lookup k with
    | none => none
    | some prev_data =>
      match p.price, prev_data.current_price with
      | some after, some before =>
        if after ≠ 0 ∧ before ≠ 0 ∧ after ≠ before then
          some { kanri_no := k, building := p.building, floor := p.floor,
                 madori := p.madori, area := p.area,
                 before := before, after := after,
                 change_amount := after - before,
                 change_rate := (((after : ℚ) - (before : ℚ)) / (before : ℚ)) * 100 }
        else none
      | _, _ => none

/-- The `staff_changes` entry contributed by one record (lines 162-171). -/
def staffChangeOf (previous : Ledger) (p : Record) : Option StaffChange :=
  match okId p with
  | none => none
  | some k =>
    match previous.lookup k with
    | none => none
    | some prev_data =>
      match p.staff, prev_data.staff with
      | some cur_staff, some prev_staff =>
        if cur_staff ≠ "" ∧ prev_staff ≠ "" ∧ cur_staff ≠ prev_staff then
          some { kanri_no := k, building := p.building, floor := p.floor,
                 before := prev_staff, after := cur_staff }
        else none
      | _, _ => none

/-- The `new_properties` entry contributed by one record (lines 172-182). -/
def newPropertyOf (previous : Ledger) (p : Record) : Option NewProperty :=
  match okId p with
  | none => none
  | some k =>
    match previous.lookup k with
    | some _ => none
    | none =>
      some { kanri_no := k, price := p.price, area := p.area,
             building := p.building, floor := p.floor, madori := p.madori,
             price_per_tsubo := p.price_per_tsubo }

/-- Python `any(changes.values())` — how both `main` (scraper.py line 486) and
`generate_change_report` (price_tracker.py line 206) test whether any change
occurred; note that `reform_changes` participates. -/
def hasChanges (c : Changes) : Bool :=
  !c.price_changes.isEmpty || !c.new_properties.isEmpty ||
  !c.ended_properties.isEmpty || !c.reform_changes.isEmpty ||
  !c.staff_changes.isEmpty

/-! ## Per-record view of the save_current_data loop -/

/-- The store assignment contributed by one record in `save_current_data`:
`none` when the record is skipped (or when its entry construction would raise,
which never happens in a successful run). -/
def emitKV (previous : Ledger) (today : String) (p : Record) :
    Option (String × LedgerEntry) :=
  match okId p with
  | none => none
  | some k => (entryFor previous today p k).map (fun v => (k, v))

/-- The contribution of one record to the store at key `k`. -/
def emitAt (previous : Ledger) (today : String) (k : String) (p : Record) :
    Option LedgerEntry :=
  match emitKV previous today p with
  | some kv => if kv.1 = k then some kv.2 else none
  | none => none

/-- The last entry stored under key `k` by the loop of `save_current_data`
(later assignments win), or `none` when no record stores `k`. -/
def lookupEmit (previous : Ledger) (today : String) (props : List Record)
    (k : String) : Option LedgerEntry :=
  props.reverse.findSome? (emitAt previous today k)

/-- A run of `save_current_data` raises no `TypeError`: every processed record
admits an entry. -/
def CrashFree (previous : Ledger) (today : String) (props : List Record) : Prop :=
  ∀ p ∈ props, ∀ k, okId p = some k → (entryFor previous today p k).isSome

/-! ## Concrete inputs used by counterexamples and witnesses -/

/-- A minimal well-formed scraped record with id `X` and price 100. -/
def exRecordX : Record := { kanri_no := some "X", price := some 100 }

/-- A persisted entry for a listing `Z` observed once on 2025-01-01. -/
def exEntryZ : LedgerEntry :=
  { history := [{ date := "2025-01-01", price := some 50 }],
    first_seen := "2025-01-01", initial_price := some 50,
    current_price := some 50, max_price := some 50, min_price := some 50 }

/-- A previous store holding only the entry for `Z`. -/
def exPrevZ : Ledger := [("Z", exEntryZ)]

/-- The store `save_current_data` builds from `[exRecordX]` on 2025-01-02. -/
def exLedgerX : Ledger :=
  [("X", { history := [{ date := "2025-01-02", price := some 100 }],
           first_seen := "2025-01-02", initial_price := some 100,
           current_price := some 100, max_price := some 100,
           min_price := some 100, total_change := 0 })]

/-- Seed URL used by the crawler counterexample and witnesses. -/
def exSeedUrl : String := "https://www.livable.co.jp/mansion/C1/"

/-- A fetch behavior whose seed page links to a second spelling of the same
listing id — the relative href `/mansion/C1`, without the trailing slash. -/
def fetchTwoSpellings : String → Except String Page := fun u =>
  if u = exSeedUrl then Except.ok { sectionLinks := ["/mansion/C1"], allLinks := [] }
  else Except.error "404"

/-- A fetch behavior for which every request raises. -/
def fetchAllFail : String → Except String Page := fun _ => Except.error "network down"

/-- A fetched page with no links at all. -/
def emptyPage : Page := { sectionLinks := [], allLinks := [] }

/-! ## Lemmas: the detect_changes loop as filterMaps -/

lemma option_match_toList {α : Type} (o : Option α) (l : List α) :
    (match o with | some a => l ++ [a] | none => l) = l ++ o.toList := by
  cases o <;> simp

lemma processRecord_eq (previous : Ledger) (acc : Changes) (p : Record) :
    processRecord previous acc p =
      { price_changes := acc.price_changes ++ (priceChangeOf previous p).toList,
        new_properties := acc.new_properties ++ (newPropertyOf previous p).toList,
        ended_properties := acc.ended_properties,
        reform_changes := acc.reform_changes,
        staff_changes := acc.staff_changes ++ (staffChangeOf previous p).toList } := by
  unfold processRecord priceChangeOf newPropertyOf staffChangeOf
  cases hok : okId p with
  | none => simp [hok]
  | some k =>
    cases hlk : previous.lookup k with
    | none => simp [hok, hlk]
    | some prev_data =>
      rcases hp : p.price with _ | pafter <;>
        rcases hq : prev_data.current_price with _ | pbefore <;>
        rcases hs : p.staff with _ | cur_staff <;>
        rcases ht : prev_data.staff with _ | prev_staff <;>
        simp only [hok, hlk, hp, hq, hs, ht] <;>
        (try split_ifs) <;> simp

lemma foldl_processRecord (previous : Ledger) (ps : List Record) (acc : Changes) :
    ps.foldl (processRecord previous) acc =
      { price_changes := acc.price_changes ++ ps.filterMap (priceChangeOf previous),
        new_properties := acc.new_properties ++ ps.filterMap (newPropertyOf previous),
        ended_properties := acc.ended_properties,
        reform_changes := acc.reform_changes,
        staff_changes := acc.staff_changes ++ ps.filterMap (staffChangeOf previous) } := by
  induction ps generalizing acc with
  | nil => simp
  | cons p ps ih =>
    rw [List.foldl_cons, processRecord_eq, ih]
    cases h1 : priceChangeOf previous p <;> cases h2 : newPropertyOf previous p <;>
      cases h3 : staffChangeOf previous p <;>
      simp [h1, h2, h3, List.filterMap_cons]

lemma detect_changes_pure_eq (cur : List Record) (previous : Ledger) :
    detect_changes_pure cur previous =
      { price_changes := cur.filterMap (priceChangeOf previous),
        new_properties := cur.filterMap (newPropertyOf previous),
        ended_properties := endedList previous (cur.filterMap okId),
        reform_changes := [],
        staff_changes := cur.filterMap (staffChangeOf previous) } := by
  unfold detect_changes_pure
  rw [foldl_processRecord]
  rfl

lemma priceChangeOf_nil (p : Record) : priceChangeOf ([] : Ledger) p = none := by
  unfold priceChangeOf
  cases hok : okId p <;> simp [hok, List.lookup]

lemma newPropertyOf_nil_map (p : Record) :
    (newPropertyOf ([] : Ledger) p).map NewProperty.kanri_no = okId p := by
  unfold newPropertyOf
  cases hok : okId p <;> simp [hok, List.lookup]

/-! ## Claim theorems: detect_changes shape and failure recovery -/

/-- C10: for every pair of current records and previous ledger,
`detect_changes` returns the five-key dict modelled by `Changes`
(`price_changes`, `new_properties`, `ended_properties`, `reform_changes`,
`staff_changes`), its `reform_changes` list is empty, and consequently the
`any(changes.values())` test used by callers never depends on
`reform_changes`. -/
theorem c10_reform_changes_always_empty (cur : List Record) (previous : Ledger) :
    (detect_changes_pure cur previous).reform_changes = []
    ∧ hasChanges (detect_changes_pure cur previous) =
        (!(detect_changes_pure cur previous).price_changes.isEmpty ||
         !(detect_changes_pure cur previous).new_properties.isEmpty ||
         !(detect_changes_pure cur previous).ended_properties.isEmpty ||
         !(detect_changes_pure cur previous).staff_changes.isEmpty) := by
  rw [detect_changes_pure_eq]
  simp [hasChanges]

/-- C8: a malformed previous-ledger file is treated as an empty ledger for the
run: `detect_changes` reports every current property considered by the tracker
(non-failed, with a truthy id) as new, emits no price changes, and the failure
surfaces as a printed warning while the call still returns normally. -/
theorem c8_malformed_ledger_recovered_as_empty (cur : List Record) :
    (detect_changes cur FileContent.corrupt).1.new_properties.map NewProperty.kanri_no
        = cur.filterMap okId
    ∧ (detect_changes cur FileContent.corrupt).1.price_changes = []
    ∧ FsEvent.warnPrint ∈ (detect_changes cur FileContent.corrupt).2 := by
  have h1 : (detect_changes cur FileContent.corrupt).1 = detect_changes_pure cur [] := rfl
  have h2 : (detect_changes cur FileContent.corrupt).2 =
      [FsEvent.fileRead, FsEvent.warnPrint] := rfl
  rw [h1, h2, detect_changes_pure_eq]
  refine ⟨?_, ?_, by simp⟩
  · simp only [List.map_filterMap]
    exact List.filterMap_congr (fun p _ => newPropertyOf_nil_map p)
  · simp only []
    exact List.filterMap_eq_nil_iff.mpr (fun p _ => priceChangeOf_nil p)

/-- C4, counterexample: `detect_changes` is not free of file access — already
on an empty record list with no persisted file it performs a file-system read
(`load_previous_data` checks and opens `price_tracker.json`), so its event
trace is nonempty; the previous ledger is not a parameter of the Python
function but is obtained from disk. -/
theorem c4_counterexample :
    (detect_changes [] FileContent.missing).2 = [FsEvent.fileRead]
    ∧ [FsEvent.fileRead] ≠ ([] : List FsEvent) := by
  exact ⟨rfl, by simp⟩

/-- C4, amended: `detect_changes` takes only the current records and reads the
previous ledger from the persisted file; apart from that read (and the warning
print on a corrupt file) it is effect-free — it never writes — and its result
is a deterministic function of the current records and the loaded ledger
content. -/
theorem c4_amended_read_only_and_deterministic (cur : List Record) (fs : FileContent) :
    (detect_changes cur fs).1 = detect_changes_pure cur (load_previous_data fs).1
    ∧ FsEvent.fileWrite ∉ (detect_changes cur fs).2 := by
  constructor
  · rfl
  · cases fs <;> simp [detect_changes, load_previous_data]

/-- C7: the admission filter of `main` admits a record iff it carries a
defined area in the half-open range `[MIN_AREA, MAX_AREA)` and its building
tag is one of the configured cluster tags; a failed-fetch record (which
carries no area) is rejected; the admitted records are exactly the ledger
input, while the discovery total counts every scraped record, rejected ones
included. -/
theorem c7_admission_filter :
    (∀ p : Record, admitRecord p = true ↔
        ∃ a : ℚ, p.area = some a ∧ MIN_AREA ≤ a ∧ a < MAX_AREA ∧
          (p.building.getD "") ∈ riseBuildings)
    ∧ (∀ url msg : String, admitRecord (errorRecord url msg) = false)
    ∧ (∀ (urls : List String) (scrape : String → Record) (p : Record),
        p ∈ mainProperties urls scrape ↔ p ∈ urls.map scrape ∧ admitRecord p = true)
    ∧ (∀ (urls : List String) (scrape : String → Record),
        totalDiscovered urls = (urls.map scrape).length) := by
  refine ⟨?_, ?_, ?_, ?_⟩
  · intro p
    unfold admitRecord
    cases ha : p.area with
    | none => simp [ha]
    | some a =>
      simp only [ha]
      split_ifs with h
      · simp only [List.contains, List.elem_iff]
        constructor
        · intro hm
          exact ⟨a, rfl, h.1, h.2, hm⟩
        · rintro ⟨a', ha', _, _, hm⟩
          cases ha'
          exact hm
      · simp only [Bool.false_eq_true, false_iff]
        rintro ⟨a', ha', h1, h2, _⟩
        cases ha'
        exact h ⟨h1, h2⟩
  · intro url msg
    rfl
  · intro urls scrape p
    simp [mainProperties, filterProperties, List.mem_filter]
  · intro urls scrape
    simp [totalDiscovered]

/-! ## Lemmas: lookup and the per-record contribution functions -/

lemma lookup_eq_none_iff (l : Ledger) (k : String) :
    l.lookup k = none ↔ k ∉ l.map Prod.fst := by
  induction l with
  | nil => simp [List.lookup]
  | cons kv l ih =>
    obtain ⟨a, b⟩ := kv
    by_cases h : k = a
    · subst h
      simp [List.lookup]
    · have hb : (k == a) = false := beq_eq_false_iff_ne.mpr h
      simp [List.lookup, hb, ih, h]

lemma lookup_isSome_iff (l : Ledger) (k : String) :
    (l.lookup k).isSome = true ↔ k ∈ l.map Prod.fst := by
  constructor
  · intro h
    by_contra hk
    rw [(lookup_eq_none_iff l k).mpr hk] at h
    simp at h
  · intro h
    cases hl : l.lookup k with
    | none => exact absurd h ((lookup_eq_none_iff l k).mp hl)
    | some v => rfl

lemma priceChangeOf_some_spec {previous : Ledger} {p : Record} {c : PriceChange}
    (h : priceChangeOf previous p = some c) :
    okId p = some c.kanri_no
    ∧ (∃ e, previous.lookup c.kanri_no = some e ∧ e.current_price = some c.before)
    ∧ p.price = some c.after
    ∧ c.after ≠ 0 ∧ c.before ≠ 0 ∧ c.after ≠ c.before
    ∧ c.change_amount = c.after - c.before
    ∧ c.change_rate = (((c.after : ℚ) - (c.before : ℚ)) / (c.before : ℚ)) * 100 := by
  unfold priceChangeOf at h
  rcases hok : okId p with _ | k <;> simp only [hok] at h
  · cases h
  rcases hlk : previous.lookup k with _ | e <;> simp only [hlk] at h
  · cases h
  rcases hp : p.price with _ | af <;> rcases hq : e.current_price with _ | bf <;>
    simp only [hp, hq] at h <;> try cases h
  split_ifs at h with hcond
  cases h
  exact ⟨rfl, ⟨e, hlk, hq⟩, rfl, hcond.1, hcond.2.1, hcond.2.2, rfl, rfl⟩

lemma staffChangeOf_some_spec {previous : Ledger} {p : Record} {c : StaffChange}
    (h : staffChangeOf previous p = some c) :
    okId p = some c.kanri_no ∧ (previous.lookup c.kanri_no).isSome = true := by
  unfold staffChangeOf at h
  rcases hok : okId p with _ | k <;> simp only [hok] at h
  · cases h
  rcases hlk : previous.lookup k with _ | e <;> simp only [hlk] at h
  · cases h
  rcases hs : p.staff with _ | cs <;> rcases ht : e.staff with _ | ps' <;>
    simp only [hs, ht] at h <;> try cases h
  split_ifs at h with hcond
  cases h
  exact ⟨rfl, by simp [hlk]⟩

lemma newPropertyOf_some_spec {previous : Ledger} {p : Record} {np : NewProperty}
    (h : newPropertyOf previous p = some np) :
    okId p = some np.kanri_no ∧ previous.lookup np.kanri_no = none := by
  unfold newPropertyOf at h
  rcases hok : okId p with _ | k <;> simp only [hok] at h
  · cases h
  rcases hlk : previous.lookup k with _ | e <;> simp only [hlk] at h
  · cases h
    exact ⟨rfl, hlk⟩
  · cases h

lemma newPropertyOf_mk {previous : Ledger} {p : Record} {k : String}
    (hok : okId p = some k) (hlk : previous.lookup k = none) :
    newPropertyOf previous p = some
      { kanri_no := k, price := p.price, area := p.area, building := p.building,
        floor := p.floor, madori := p.madori, price_per_tsubo := p.price_per_tsubo } := by
  unfold newPropertyOf
  simp only [hok, hlk]

/-- Membership characterization of the ids of `new_properties`. -/
lemma mem_new_ids {cur : List Record} {previous : Ledger} {x : String} :
    x ∈ (cur.filterMap (newPropertyOf previous)).map NewProperty.kanri_no ↔
      (∃ p ∈ cur, okId p = some x) ∧ previous.lookup x = none := by
  constructor
  · intro hx
    simp only [List.mem_map, List.mem_filterMap] at hx
    obtain ⟨np, ⟨p, hp, hnp⟩, rfl⟩ := hx
    obtain ⟨hok, hlk⟩ := newPropertyOf_some_spec hnp
    exact ⟨⟨p, hp, hok⟩, hlk⟩
  · rintro ⟨⟨p, hp, hok⟩, hlk⟩
    simp only [List.mem_map, List.mem_filterMap]
    exact ⟨_, ⟨p, hp, newPropertyOf_mk hok hlk⟩, rfl⟩

/-- Membership characterization of the ids of `ended_properties`. -/
lemma mem_ended_ids {previous : Ledger} {current_ids : List String} {x : String} :
    x ∈ (endedList previous current_ids).map EndedProperty.kanri_no ↔
      x ∈ previous.map Prod.fst ∧ x ∉ current_ids := by
  unfold endedList
  constructor
  · intro hx
    simp only [List.mem_map, List.mem_filterMap, List.mem_filter,
      List.mem_dedup] at hx
    obtain ⟨ep, ⟨k, ⟨hk, hnot⟩, he⟩, rfl⟩ := hx
    rcases hlk : previous.lookup k with _ | e <;> simp only [hlk] at he
    · cases he
    · cases he
      exact ⟨by simpa [List.mem_map] using hk, by simpa using hnot⟩
  · rintro ⟨hk, hnot⟩
    have hs2 : (previous.lookup x).isSome = true := (lookup_isSome_iff previous x).mpr hk
    obtain ⟨e, he⟩ := Option.isSome_iff_exists.mp hs2
    refine List.mem_map.mpr ⟨⟨x, e.building, e.floor, e.madori, e.current_price⟩, ?_, rfl⟩
    refine List.mem_filterMap.mpr ⟨x, ?_, by rw [he]; rfl⟩
    refine List.mem_filter.mpr ⟨List.mem_dedup.mpr hk, ?_⟩
    simpa using hnot

/-! ## Lemmas: upsert on the association-list store -/

lemma lookup_map_replace (td : Ledger) (k x : String) (v : LedgerEntry) :
    (td.map (fun kv => if kv.1 = k then (k, v) else kv)).lookup x =
      if x = k then (td.lookup k).map (fun _ => v) else td.lookup x := by
  induction td with
  | nil => simp [List.lookup]
  | cons kv td ih =>
    obtain ⟨a, b⟩ := kv
    by_cases hak : a = k
    · subst hak
      by_cases hx : x = a
      · subst hx
        simp [List.lookup_cons]
      · have hb : (x == a) = false := beq_eq_false_iff_ne.mpr hx
        simp [List.lookup_cons, hb, hx, ih]
    · by_cases hx : x = a
      · subst hx
        have hxk : ¬x = k := hak
        have hkb : (k == x) = false := beq_eq_false_iff_ne.mpr (Ne.symm hak)
        simp [List.lookup_cons, hak, hxk, hkb]
      · have hb : (x == a) = false := beq_eq_false_iff_ne.mpr hx
        have hkb : (k == a) = false := beq_eq_false_iff_ne.mpr (Ne.symm hak)
        simp [List.lookup_cons, hak, hb, hkb, ih]

lemma upsert_lookup (td : Ledger) (k : String) (v : LedgerEntry) (x : String) :
    (upsert td k v).lookup x = if x = k then some v else td.lookup x := by
  unfold upsert
  by_cases hsome : (td.lookup k).isSome = true
  · rw [if_pos hsome, lookup_map_replace]
    obtain ⟨w, hw⟩ := Option.isSome_iff_exists.mp hsome
    by_cases hx : x = k <;> simp [hx, hw]
  · rw [if_neg hsome, List.lookup_append]
    have hnone : td.lookup k = none := by
      cases h : td.lookup k with
      | none => rfl
      | some w => exact absurd (by rw [h]; rfl) hsome
    by_cases hx : x = k
    · subst hx
      simp [hnone, List.lookup_cons]
    · have hb : (x == k) = false := beq_eq_false_iff_ne.mpr hx
      simp [List.lookup_cons, hb, hx, List.lookup]

lemma upsert_keys_toFinset (td : Ledger) (k : String) (v : LedgerEntry) :
    ((upsert td k v).map Prod.fst).toFinset = insert k (td.map Prod.fst).toFinset := by
  unfold upsert
  by_cases hsome : (td.lookup k).isSome = true
  · rw [if_pos hsome]
    have hkeys : (td.map (fun kv => if kv.1 = k then (k, v) else kv)).map Prod.fst
        = td.map Prod.fst := by
      rw [List.map_map]
      refine List.map_congr_left ?_
      intro kv _
      by_cases h : kv.1 = k
      · simp [h]
      · simp [h]
    rw [hkeys]
    have hk : k ∈ (td.map Prod.fst).toFinset :=
      List.mem_toFinset.mpr ((lookup_isSome_iff td k).mp hsome)
    rw [Finset.insert_eq_self.mpr hk]
  · rw [if_neg hsome]
    ext x
    simp [List.mem_toFinset, or_comm]

/-! ## Lemmas: entries built by save_current_data -/

lemma historyFor_last_today (previous : Ledger) (today : String) (p : Record)
    (k : String) :
    ((historyFor previous today p k).getLast?.map HistoryPoint.date) = some today := by
  unfold historyFor
  rcases hlk : previous.lookup k with _ | e <;> simp only [hlk]
  · simp
  · rcases hl : e.history.getLast? with _ | h <;> simp only [hl]
    · simp [List.getLast?_concat]
    · by_cases hd : h.date = today
      · simp [hd, hl]
      · simp [hd, List.getLast?_concat]

lemma entryFor_some_spec {previous : Ledger} {today : String} {p : Record}
    {k : String} {v : LedgerEntry} (h : entryFor previous today p k = some v) :
    v.history = historyFor previous today p k
    ∧ (v.history.getLast?.map HistoryPoint.date) = some today
    ∧ ∃ h0, v.history.head? = some h0 ∧ h0.price.isSome = true := by
  unfold entryFor at h
  rcases hh : (historyFor previous today p k).head? with _ | h0 <;> simp only [hh] at h
  · cases h
  rcases hp0 : h0.price with _ | ip <;> simp only [hp0] at h
  · cases h
  cases h
  refine ⟨rfl, ?_, ⟨h0, hh, by rw [hp0]; rfl⟩⟩
  exact historyFor_last_today previous today p k

lemma entryFor_isSome_of {previous : Ledger} {today : String} {p : Record}
    {k : String} {h0 : HistoryPoint}
    (hh : (historyFor previous today p k).head? = some h0)
    (hp : h0.price.isSome = true) :
    (entryFor previous today p k).isSome = true := by
  unfold entryFor
  simp only [hh]
  obtain ⟨ip, hip⟩ := Option.isSome_iff_exists.mp hp
  simp [hip]

lemma historyFor_stable {previous : Ledger} {today : String} {p : Record}
    {k : String} {e : LedgerEntry} (hlk : previous.lookup k = some e)
    (hlast : e.history.getLast?.map HistoryPoint.date = some today) :
    historyFor previous today p k = e.history := by
  unfold historyFor
  simp only [hlk]
  rcases hl : e.history.getLast? with _ | h
  · rw [hl] at hlast
    cases hlast
  · rw [hl] at hlast
    simp only [Option.map_some'] at hlast
    cases hlast
    simp [hl]

lemma entryFor_congr {prev1 prev2 : Ledger} {today : String} {p : Record}
    {k : String} (h : historyFor prev1 today p k = historyFor prev2 today p k) :
    entryFor prev1 today p k = entryFor prev2 today p k := by
  unfold entryFor
  rw [h]

lemma emitKV_of_okId_none {previous : Ledger} {today : String} {p : Record}
    (h : okId p = none) : emitKV previous today p = none := by
  unfold emitKV
  simp [h]

lemma emitKV_of_entry {previous : Ledger} {today : String} {p : Record}
    {k : String} {v : LedgerEntry} (hok : okId p = some k)
    (hef : entryFor previous today p k = some v) :
    emitKV previous today p = some (k, v) := by
  unfold emitKV
  simp [hok, hef]

lemma emitKV_some_spec {previous : Ledger} {today : String} {p : Record}
    {k : String} {v : LedgerEntry} (h : emitKV previous today p = some (k, v)) :
    okId p = some k ∧ entryFor previous today p k = some v := by
  unfold emitKV at h
  rcases hok : okId p with _ | k0 <;> simp only [hok] at h
  · cases h
  rcases hef : entryFor previous today p k0 with _ | v0 <;> simp only [hef] at h
  · cases h
  · simp only [Option.map_some'] at h
    cases h
    exact ⟨rfl, hef⟩

lemma emitKV_pass2 {L L2 : Ledger} {today : String} {p : Record} {k : String}
    {v : LedgerEntry} (h1 : emitKV L today p = some (k, v))
    (h2 : L2.lookup k = some v) :
    emitKV L2 today p = some (k, v) := by
  obtain ⟨hok, hef⟩ := emitKV_some_spec h1
  obtain ⟨hhist, hlast, _⟩ := entryFor_some_spec hef
  have hstable : historyFor L2 today p k = v.history :=
    historyFor_stable h2 (by rw [hhist] at hlast; rw [← hhist] at hlast; exact hlast)
  have hcongr : entryFor L2 today p k = entryFor L today p k :=
    entryFor_congr (by rw [hstable, hhist])
  exact emitKV_of_entry hok (by rw [hcongr]; exact hef)

/-! ## Lemmas: the save_current_data fold -/

lemma lookupEmit_cons (previous : Ledger) (today : String) (p : Record)
    (ps : List Record) (k : String) :
    lookupEmit previous today (p :: ps) k =
      (lookupEmit previous today ps k).or (emitAt previous today k p) := by
  unfold lookupEmit
  rw [List.reverse_cons, List.findSome?_append]
  congr 1
  rcases hg : emitAt previous today k p with _ | v <;>
    simp [List.findSome?_cons, hg]

lemma run_lookup {previous : Ledger} {today : String} :
    ∀ (props : List Record) (td L : Ledger),
      props.foldlM (saveStep previous today) td = some L →
      ∀ k, L.lookup k = (lookupEmit previous today props k).or (td.lookup k) := by
  intro props
  induction props with
  | nil =>
    intro td L h k
    cases h
    simp [lookupEmit]
  | cons p ps ih =>
    intro td L h k
    rw [List.foldlM_cons] at h
    rcases hstep : saveStep previous today td p with _ | td2 <;> rw [hstep] at h
    · cases h
    simp only [Option.bind_eq_bind, Option.some_bind] at h
    have hL := ih td2 L h k
    unfold saveStep at hstep
    rcases hok : okId p with _ | k0 <;> simp only [hok] at hstep
    · cases hstep
      have hg : emitAt previous today k p = none := by
        unfold emitAt
        rw [emitKV_of_okId_none hok]
      rw [hL, lookupEmit_cons, hg, Option.or_none]
    · rcases hef : entryFor previous today p k0 with _ | v <;> simp only [hef] at hstep
      · cases hstep
      cases hstep
      have hg : emitAt previous today k p =
          (if k0 = k then some v else none) := by
        unfold emitAt
        rw [emitKV_of_entry hok hef]
      rw [hL, lookupEmit_cons, hg, upsert_lookup, Option.or_assoc]
      by_cases hk : k = k0
      · subst hk
        simp
      · have : ¬k0 = k := fun hc => hk hc.symm
        simp [hk, this]

lemma crashFree_of_run {previous : Ledger} {today : String} :
    ∀ (props : List Record) (td L : Ledger),
      props.foldlM (saveStep previous today) td = some L →
      CrashFree previous today props := by
  intro props
  induction props with
  | nil =>
    intro td L _ q hq
    cases hq
  | cons p ps ih =>
    intro td L h q hq k hk
    rw [List.foldlM_cons] at h
    rcases hstep : saveStep previous today td p with _ | td2 <;> rw [hstep] at h
    · cases h
    simp only [Option.bind_eq_bind, Option.some_bind] at h
    rcases List.mem_cons.mp hq with rfl | hq2
    · unfold saveStep at hstep
      simp only [hk] at hstep
      rcases hef : entryFor previous today q k with _ | v <;> simp only [hef] at hstep
      · cases hstep
      · rfl
    · exact ih td2 L h q hq2 k hk

lemma run_isSome_of_crashFree {previous : Ledger} {today : String} :
    ∀ (props : List Record) (td : Ledger),
      CrashFree previous today props →
      ∃ L, props.foldlM (saveStep previous today) td = some L := by
  intro props
  induction props with
  | nil =>
    intro td _
    exact ⟨td, rfl⟩
  | cons p ps ih =>
    intro td hcf
    have hps : CrashFree previous today ps := fun q hq k hk =>
      hcf q (List.mem_cons_of_mem p hq) k hk
    rw [List.foldlM_cons]
    rcases hok : okId p with _ | k
    · have hstep : saveStep previous today td p = some td := by
        unfold saveStep
        simp only [hok]
      obtain ⟨L, hL⟩ := ih td hps
      refine ⟨L, ?_⟩
      rw [hstep]
      simpa [Option.bind_eq_bind, Option.some_bind] using hL
    · have hsome := hcf p (List.mem_cons_self p ps) k hok
      obtain ⟨v, hv⟩ := Option.isSome_iff_exists.mp hsome
      have hstep : saveStep previous today td p = some (upsert td k v) := by
        unfold saveStep
        simp only [hok, hv]
      obtain ⟨L, hL⟩ := ih (upsert td k v) hps
      refine ⟨L, ?_⟩
      rw [hstep]
      simpa [Option.bind_eq_bind, Option.some_bind] using hL

lemma run_keys {previous : Ledger} {today : String} :
    ∀ (props : List Record) (td L : Ledger),
      props.foldlM (saveStep previous today) td = some L →
      (L.map Prod.fst).toFinset =
        (td.map Prod.fst).toFinset ∪ (props.filterMap okId).toFinset := by
  intro props
  induction props with
  | nil =>
    intro td L h
    cases h
    simp
  | cons p ps ih =>
    intro td L h
    rw [List.foldlM_cons] at h
    rcases hstep : saveStep previous today td p with _ | td2 <;> rw [hstep] at h
    · cases h
    simp only [Option.bind_eq_bind, Option.some_bind] at h
    have hL := ih td2 L h
    unfold saveStep at hstep
    rcases hok : okId p with _ | k <;> simp only [hok] at hstep
    · cases hstep
      rw [hL, List.filterMap_cons, hok]
    · rcases hef : entryFor previous today p k with _ | v <;> simp only [hef] at hstep
      · cases hstep
      cases hstep
      rw [hL, upsert_keys_toFinset, List.filterMap_cons, hok]
      ext x
      simp only [Finset.mem_union, Finset.mem_insert, List.mem_toFinset, List.mem_cons]
      tauto

lemma exists_of_findSome?_eq_some {α β : Type} {f : α → Option β} :
    ∀ {l : List α} {b : β}, l.findSome? f = some b → ∃ a ∈ l, f a = some b := by
  intro l
  induction l with
  | nil =>
    intro b h
    cases h
  | cons a l ih =>
    intro b h
    rw [List.findSome?_cons] at h
    rcases hf : f a with _ | c <;> rw [hf] at h
    · obtain ⟨a2, ha2, hfa2⟩ := ih h
      exact ⟨a2, List.mem_cons_of_mem a ha2, hfa2⟩
    · cases h
      exact ⟨a, List.mem_cons_self a l, hf⟩

lemma emitKV_of_entry_none {previous : Ledger} {today : String} {p : Record}
    {k : String} (hok : okId p = some k)
    (hef : entryFor previous today p k = none) :
    emitKV previous today p = none := by
  unfold emitKV
  simp [hok, hef]

lemma findSome?_emitAt_eq {L L2 : Ledger} {today k : String} :
    ∀ {ps : List Record},
      (∀ p ∈ ps, ∀ k0, okId p = some k0 → (entryFor L today p k0).isSome = true) →
      ps.findSome? (emitAt L today k) = L2.lookup k →
      ps.findSome? (emitAt L2 today k) = ps.findSome? (emitAt L today k) := by
  intro ps
  induction ps with
  | nil =>
    intro _ _
    rfl
  | cons p ps ih =>
    intro hcf hfind
    rcases hg : emitAt L today k p with _ | v
    · have hg2 : emitAt L2 today k p = none := by
        rcases hok : okId p with _ | k0
        · unfold emitAt
          rw [emitKV_of_okId_none hok]
        · by_cases hkk : k0 = k
          · exfalso
            have hsome := hcf p (List.mem_cons_self p ps) k0 hok
            obtain ⟨v2, hv2⟩ := Option.isSome_iff_exists.mp hsome
            unfold emitAt at hg
            simp only [emitKV_of_entry hok hv2] at hg
            rw [if_pos hkk] at hg
            cases hg
          · unfold emitAt
            rcases hef : entryFor L2 today p k0 with _ | v2
            · rw [emitKV_of_entry_none hok hef]
            · rw [emitKV_of_entry hok hef]
              simp [hkk]
      simp only [List.findSome?_cons, hg] at hfind
      simp only [List.findSome?_cons, hg, hg2]
      have hps : ∀ p2 ∈ ps, ∀ k0, okId p2 = some k0 →
          (entryFor L today p2 k0).isSome = true := fun p2 hp2 k0 hk0 =>
        hcf p2 (List.mem_cons_of_mem p hp2) k0 hk0
      exact ih hps hfind
    · simp only [List.findSome?_cons, hg] at hfind
      have hlk : L2.lookup k = some v := hfind.symm
      have hkv : emitKV L today p = some (k, v) := by
        unfold emitAt at hg
        rcases hkv0 : emitKV L today p with _ | kv <;> simp only [hkv0] at hg
        · cases hg
        · obtain ⟨k1, v1⟩ := kv
          split_ifs at hg with hkk
          cases hg
          cases hkk
          rfl
      have hg2 : emitAt L2 today k p = some v := by
        unfold emitAt
        rw [emitKV_pass2 hkv hlk]
        simp
      simp only [List.findSome?_cons, hg, hg2]
/-! ## Claim theorems: the ChangeSet partition (C5) and the price rule (C6) -/

/-- C5: the ids of `new_properties`, the previous∩current intersection, and
the ids of `ended_properties` together cover exactly previous ∪ current;
`new_properties` and `ended_properties` are id-disjoint; and every
`price_changes`/`staff_changes` element carries an id from the intersection. -/
theorem c5_changeset_partition (cur : List Record) (previous : Ledger) :
    (((detect_changes_pure cur previous).new_properties.map
        NewProperty.kanri_no).toFinset
      ∪ ((previous.map Prod.fst).toFinset ∩ (cur.filterMap okId).toFinset)
      ∪ ((detect_changes_pure cur previous).ended_properties.map
          EndedProperty.kanri_no).toFinset
      = (previous.map Prod.fst).toFinset ∪ (cur.filterMap okId).toFinset)
    ∧ Disjoint
        ((detect_changes_pure cur previous).new_properties.map
          NewProperty.kanri_no).toFinset
        ((detect_changes_pure cur previous).ended_properties.map
          EndedProperty.kanri_no).toFinset
    ∧ (∀ c ∈ (detect_changes_pure cur previous).price_changes,
        c.kanri_no ∈ (previous.map Prod.fst).toFinset ∩ (cur.filterMap okId).toFinset)
    ∧ (∀ c ∈ (detect_changes_pure cur previous).staff_changes,
        c.kanri_no ∈ (previous.map Prod.fst).toFinset ∩ (cur.filterMap okId).toFinset) := by
  rw [detect_changes_pure_eq]
  simp only []
  refine ⟨?_, ?_, ?_, ?_⟩
  · ext x
    simp only [Finset.mem_union, Finset.mem_inter, List.mem_toFinset,
      mem_new_ids, mem_ended_ids, List.mem_filterMap, lookup_eq_none_iff]
    constructor
    · rintro ((⟨hc, hnp⟩ | ⟨hp, hc⟩) | ⟨hp, _⟩)
      · exact Or.inr hc
      · exact Or.inl hp
      · exact Or.inl hp
    · intro h
      by_cases hp : x ∈ previous.map Prod.fst
      · by_cases hc : ∃ p ∈ cur, okId p = some x
        · exact Or.inl (Or.inr ⟨hp, hc⟩)
        · exact Or.inr ⟨hp, by simpa [List.mem_filterMap] using hc⟩
      · rcases h with h | hc
        · exact absurd h hp
        · exact Or.inl (Or.inl ⟨hc, hp⟩)
  · rw [Finset.disjoint_left]
    intro x hx hy
    rw [List.mem_toFinset, mem_new_ids] at hx
    rw [List.mem_toFinset, mem_ended_ids] at hy
    exact absurd ((lookup_eq_none_iff previous x).mp hx.2) (by simpa using hy.1)
  · intro c hc
    obtain ⟨p, hp, h⟩ := List.mem_filterMap.mp hc
    obtain ⟨hok, ⟨e, hlk, _⟩, _⟩ := priceChangeOf_some_spec h
    simp only [Finset.mem_inter, List.mem_toFinset, List.mem_filterMap]
    exact ⟨(lookup_isSome_iff previous _).mp (by rw [hlk]; rfl), ⟨p, hp, hok⟩⟩
  · intro c hc
    obtain ⟨p, hp, h⟩ := List.mem_filterMap.mp hc
    obtain ⟨hok, hsome⟩ := staffChangeOf_some_spec h
    simp only [Finset.mem_inter, List.mem_toFinset, List.mem_filterMap]
    exact ⟨(lookup_isSome_iff previous _).mp hsome, ⟨p, hp, hok⟩⟩

/-- C6, counterexample: a record whose price is `0` is defined and differs
from the stored `current_price = 5`, yet no `price_changes` entry is emitted —
the source tests Python truthiness (`if current_price and previous_price`),
under which a defined price of `0` is falsy, not definedness. -/
theorem c6_counterexample :
    (detect_changes_pure [{ kanri_no := some "K", price := some 0 }]
        [("K", { current_price := some 5 })]).price_changes = []
    ∧ ({ kanri_no := some "K", price := some 0 } : Record).price = some 0
    ∧ (([("K", { current_price := some 5 })] : Ledger).lookup "K").map
        LedgerEntry.current_price = some (some 5)
    ∧ okId { kanri_no := some "K", price := some 0 } = some "K" := by
  refine ⟨?_, rfl, rfl, rfl⟩
  rw [detect_changes_pure_eq]
  rfl

/-- C6, amended: for every current record whose id is in the previous ledger,
`detect_changes` emits a `price_changes` entry iff both the price of the
record and the stored `current_price` are defined AND NONZERO (Python truthy)
and different; each emitted entry satisfies
`change_amount = after - before` and `change_rate = change_amount / before * 100`. -/
theorem c6_amended_price_change_rule (cur : List Record) (previous : Ledger) :
    (detect_changes_pure cur previous).price_changes
        = cur.filterMap (priceChangeOf previous)
    ∧ ∀ c ∈ (detect_changes_pure cur previous).price_changes,
        c.change_amount = c.after - c.before
        ∧ c.change_rate = (((c.after : ℚ) - (c.before : ℚ)) / (c.before : ℚ)) * 100
        ∧ c.after ≠ 0 ∧ c.before ≠ 0 ∧ c.after ≠ c.before
        ∧ (∃ p ∈ cur, okId p = some c.kanri_no ∧ p.price = some c.after)
        ∧ (∃ e, previous.lookup c.kanri_no = some e ∧ e.current_price = some c.before) := by
  refine ⟨by rw [detect_changes_pure_eq], ?_⟩
  intro c hc
  rw [detect_changes_pure_eq] at hc
  obtain ⟨p, hp, h⟩ := List.mem_filterMap.mp hc
  obtain ⟨hok, ⟨e, hlk, hq⟩, hpr, h1, h2, h3, h4, h5⟩ := priceChangeOf_some_spec h
  exact ⟨h4, h5, h1, h2, h3, ⟨p, hp, hok, hpr⟩, ⟨e, hlk, hq⟩⟩

/-! ## Claim theorems: the persisted store after a commit (C1, C2) -/

/-- C1, counterexample: the previous store holds an entry for `Z`; the current
records do not mention `Z`; after `save_current_data` the new persisted store
has no entry for `Z` at all — the entry was dropped, not carried forward
verbatim, because `save_current_data` rebuilds `tracker_data` from scratch
over the current records only. -/
theorem c1_counterexample :
    (exPrevZ.lookup "Z").isSome = true
    ∧ save_current_data [exRecordX] exPrevZ "2025-01-02" = some exLedgerX
    ∧ exLedgerX.lookup "Z" = none := by
  refine ⟨rfl, by decide, rfl⟩

/-- C1, amended: a successful `save_current_data` run rebuilds the persisted
store from the current records alone — the keys of the new store are exactly
the ids of the non-failed, id-bearing current records, so every previous entry
whose id is absent from the current records is removed from the new persisted
store (history of ended listings survives only in earlier files/snapshots). -/
theorem c1_amended_store_rebuilt_from_current (props : List Record)
    (previous : Ledger) (today : String) (L : Ledger)
    (h : save_current_data props previous today = some L) :
    (L.map Prod.fst).toFinset = (props.filterMap okId).toFinset
    ∧ ∀ k, k ∉ props.filterMap okId → L.lookup k = none := by
  have hk := run_keys props [] L h
  simp only [List.map_nil, List.toFinset_nil, Finset.empty_union] at hk
  refine ⟨hk, ?_⟩
  intro k hkmem
  rw [lookup_eq_none_iff]
  intro hcon
  have hmem : k ∈ (props.filterMap okId).toFinset := by
    rw [← hk]
    exact List.mem_toFinset.mpr hcon
  exact hkmem (List.mem_toFinset.mp hmem)

/-- Witness for the amended C1 at a concrete input. -/
theorem c1_amended_store_rebuilt_from_current_witness :
    (exLedgerX.map Prod.fst).toFinset
      = (([exRecordX] : List Record).filterMap okId).toFinset :=
  (c1_amended_store_rebuilt_from_current [exRecordX] exPrevZ "2025-01-02"
    exLedgerX (by decide)).1

/-- C2: same-day commit is idempotent.  If a `save_current_data` run over
`props` with store `previous` and date `today` succeeds with result `L`, then
re-running it with the same records and the same date over `L` succeeds, and
the resulting store agrees with `L` on every key: no history point is
duplicated (history, and hence its length, is unchanged), and `first_seen`,
`initial_price`, `max_price`, `min_price` and `total_change` are identical. -/
theorem c2_same_day_commit_idempotent (props : List Record)
    (previous L : Ledger) (today : String)
    (h : save_current_data props previous today = some L) :
    ∃ L2, save_current_data props L today = some L2
      ∧ ∀ k, L2.lookup k = L.lookup k := by
  have hcf1 : CrashFree previous today props := crashFree_of_run props [] L h
  have hK1 : ∀ k, L.lookup k = lookupEmit previous today props k := by
    intro k
    have hx := run_lookup props [] L h k
    simpa [List.lookup, Option.or_none] using hx
  have hcf2 : CrashFree L today props := by
    intro p hp k hok
    have hsome := hcf1 p hp k hok
    obtain ⟨v, hv⟩ := Option.isSome_iff_exists.mp hsome
    have hkv : emitKV previous today p = some (k, v) := emitKV_of_entry hok hv
    have hmem : (props.reverse.findSome? (emitAt previous today k)).isSome = true := by
      rw [List.findSome?_isSome_iff]
      refine ⟨p, List.mem_reverse.mpr hp, ?_⟩
      unfold emitAt
      rw [hkv]
      simp
    obtain ⟨e, he⟩ := Option.isSome_iff_exists.mp hmem
    have hlk : L.lookup k = some e := by
      rw [hK1 k]
      exact he
    obtain ⟨q, hq, hqe⟩ := exists_of_findSome?_eq_some he
    have hkvq : emitKV previous today q = some (k, e) := by
      unfold emitAt at hqe
      rcases hkv0 : emitKV previous today q with _ | kv <;> simp only [hkv0] at hqe
      · cases hqe
      · obtain ⟨k1, v1⟩ := kv
        split_ifs at hqe with hkk
        cases hqe
        cases hkk
        rfl
    obtain ⟨hokq, hefq⟩ := emitKV_some_spec hkvq
    obtain ⟨hhist, hlast, h0, hh0, hp0⟩ := entryFor_some_spec hefq
    have hstable : historyFor L today p k = e.history := historyFor_stable hlk hlast
    refine entryFor_isSome_of ?_ hp0
    rw [hstable]
    exact hh0
  obtain ⟨L2, hL2⟩ := run_isSome_of_crashFree props [] hcf2
  refine ⟨L2, hL2, ?_⟩
  intro k
  have hK2 : L2.lookup k = lookupEmit L today props k := by
    have hx := run_lookup props [] L2 hL2 k
    simpa [List.lookup, Option.or_none] using hx
  rw [hK2, hK1 k]
  unfold lookupEmit
  apply findSome?_emitAt_eq
  · intro p hp k0 hok
    exact hcf1 p (List.mem_reverse.mp hp) k0 hok
  · rw [hK1 k]
    rfl

/-- Witness for C2 at a concrete input: committing `[exRecordX]` over the
empty store on 2025-01-02 gives `exLedgerX`, and the second same-day commit
agrees with it on every key. -/
theorem c2_same_day_commit_idempotent_witness :
    ∃ L2, save_current_data [exRecordX] exLedgerX "2025-01-02" = some L2
      ∧ ∀ k, L2.lookup k = exLedgerX.lookup k :=
  c2_same_day_commit_idempotent [exRecordX] [] exLedgerX "2025-01-02" (by decide)

/-! ## Lemmas: the crawler under failures, and BFS termination -/

lemma extractLinks_emptyPage (u : String) : extractLinks emptyPage u = [] := rfl

lemma discover_related_error_fst (fetch : String → Except String Page)
    (url : String) (visited : List String) (e : String)
    (h : fetch (normalizeUrl url) = Except.error e) :
    (discover_related_properties fetch url visited).1 = [] := by
  unfold discover_related_properties
  rcases hid : extract_property_id (normalizeUrl url) with _ | pid <;> simp only [hid]
  by_cases hv : normalizeUrl url ∈ visited
  · rw [if_pos hv]
  · rw [if_neg hv]
    simp only [h]

lemma discover_related_update (fetch : String → Except String Page) (u e : String)
    (h : fetch u = Except.error e) (url : String) (visited : List String) :
    discover_related_properties (Function.update fetch u (Except.ok emptyPage)) url visited
      = discover_related_properties fetch url visited := by
  unfold discover_related_properties
  rcases hid : extract_property_id (normalizeUrl url) with _ | pid <;> simp only [hid]
  by_cases hv : normalizeUrl url ∈ visited
  · simp only [if_pos hv]
  · simp only [if_neg hv]
    by_cases hu : normalizeUrl url = u
    · rw [hu, h, Function.update_same]
      simp [extractLinks_emptyPage]
    · rw [Function.update_noteq hu]

lemma autoDiscover_update (fetch : String → Except String Page) (u e : String)
    (h : fetch u = Except.error e) :
    ∀ (fuel : Nat) (q v d : List String),
      autoDiscoverFuel (Function.update fetch u (Except.ok emptyPage)) fuel q v d
        = autoDiscoverFuel fetch fuel q v d := by
  intro fuel
  induction fuel with
  | zero =>
    intro q v d
    cases q <;> rfl
  | succ fuel ih =>
    intro q v d
    cases q with
    | nil => rfl
    | cons x rest =>
      simp only [autoDiscoverFuel]
      rcases hid : extract_property_id (normalizeUrl x) with _ | pid <;> simp only [hid]
      · exact ih rest v d
      · by_cases hmem : normalizeUrl x ∈ d
        · simp only [if_pos hmem]
          exact ih rest v d
        · simp only [if_neg hmem, discover_related_update fetch u e h]
          exact ih _ _ _

lemma autoDiscover_terminates {fetch : String → Except String Page}
    {U : Finset String}
    (hclosed : ∀ u ∈ U, ∀ vs : List String,
        ∀ l ∈ (discover_related_properties fetch u vs).1, normalizeUrl l ∈ U) :
    ∀ (n m : Nat) (q v d : List String),
      (∀ x ∈ q, normalizeUrl x ∈ U) → (∀ x ∈ d, x ∈ U) → d.Nodup →
      U.card - d.length + 1 ≤ n → q.length ≤ m →
      ∃ fuel r, autoDiscoverFuel fetch fuel q v d = some r
        ∧ r.Nodup ∧ ∀ x ∈ r, x ∈ U := by
  intro n
  induction n with
  | zero =>
    intro m q v d _ _ _ hb _
    exact absurd hb (by omega)
  | succ n ihn =>
    intro m
    induction m with
    | zero =>
      intro q v d hq hd hnd hb hm
      have hqnil : q = [] := List.length_eq_zero.mp (Nat.le_zero.mp hm)
      subst hqnil
      exact ⟨1, d, rfl, hnd, hd⟩
    | succ m ihm =>
      intro q v d hq hd hnd hb hm
      cases q with
      | nil => exact ⟨1, d, rfl, hnd, hd⟩
      | cons u rest =>
        have hrest : rest.length ≤ m := by
          simp only [List.length_cons] at hm
          omega
        have hu : normalizeUrl u ∈ U := hq u (List.mem_cons_self u rest)
        rcases hid : extract_property_id (normalizeUrl u) with _ | pid
        · obtain ⟨fuel, r, hrun, hnd2, hU2⟩ :=
            ihm rest v d (fun x hx => hq x (List.mem_cons_of_mem _ hx)) hd hnd hb hrest
          refine ⟨fuel + 1, r, ?_, hnd2, hU2⟩
          simp only [autoDiscoverFuel, hid]
          exact hrun
        · by_cases hmem : normalizeUrl u ∈ d
          · obtain ⟨fuel, r, hrun, hnd2, hU2⟩ :=
              ihm rest v d (fun x hx => hq x (List.mem_cons_of_mem _ hx)) hd hnd hb hrest
            refine ⟨fuel + 1, r, ?_, hnd2, hU2⟩
            simp only [autoDiscoverFuel, hid]
            rw [if_pos hmem]
            exact hrun
          · have hd2 : ∀ x ∈ (normalizeUrl u :: d), x ∈ U := by
              intro x hx
              rcases List.mem_cons.mp hx with rfl | hx2
              · exact hu
              · exact hd x hx2
            have hnd2 : (normalizeUrl u :: d).Nodup := List.nodup_cons.mpr ⟨hmem, hnd⟩
            have hq2 : ∀ x ∈ rest ++
                (discover_related_properties fetch (normalizeUrl u) v).1.filter
                  (fun l => l ∉ normalizeUrl u :: d), normalizeUrl x ∈ U := by
              intro x hx
              rcases List.mem_append.mp hx with hx1 | hx2
              · exact hq x (List.mem_cons_of_mem _ hx1)
              · exact hclosed (normalizeUrl u) hu v x (List.mem_filter.mp hx2).1
            have hsub : d.toFinset ⊆ U := fun x hx => hd x (List.mem_toFinset.mp hx)
            have hlt : d.length < U.card := by
              rw [← List.toFinset_card_of_nodup hnd]
              exact Finset.card_lt_card ((Finset.ssubset_iff_of_subset hsub).mpr
                ⟨normalizeUrl u, hu, fun hc => hmem (List.mem_toFinset.mp hc)⟩)
            have hb2 : U.card - (normalizeUrl u :: d).length + 1 ≤ n := by
              simp only [List.length_cons]
              omega
            obtain ⟨fuel, r, hrun, hnd3, hU3⟩ :=
              ihn _ _ (discover_related_properties fetch (normalizeUrl u) v).2 _
                hq2 hd2 hnd2 hb2 (le_refl _)
            refine ⟨fuel + 1, r, ?_, hnd3, hU3⟩
            simp only [autoDiscoverFuel, hid]
            rw [if_neg hmem]
            exact hrun

/-! ## Claim theorems: the discovery crawler (C3, C9) -/

/-- C3, counterexample: the deduplication of `auto_discover_properties` is by
exact URL string, not by extracted identity — a listing reachable under two
spellings (`…/mansion/C1/` from the seed list and the relative `/mansion/C1`
from a page link) is admitted into `discovered` twice, so its identity `C1`
appears twice, refuting "every reachable identity appears at most once". -/
theorem c3_counterexample :
    (auto_discover_properties fetchTwoSpellings [exSeedUrl] 10).map
        (fun d => (d.map extract_property_id).count (some "C1")) = some 2 := by
  decide

/-- C3, amended: for every finite closed URL universe `U` containing the
normalized seeds and closed under the normalized related-links expansion, the
BFS of `auto_discover_properties` terminates (some finite fuel drains the
queue), and every URL appears at most once in `discovered` (the discovered
list is duplicate-free as a list of URL strings); identities, however, may
repeat across distinct spellings of the same listing. -/
theorem c3_amended_bfs_terminates_url_dedup
    (fetch : String → Except String Page) (seeds : List String) (U : Finset String)
    (hseed : ∀ s ∈ seeds, normalizeUrl s ∈ U)
    (hclosed : ∀ u ∈ U, ∀ vs : List String,
        ∀ l ∈ (discover_related_properties fetch u vs).1, normalizeUrl l ∈ U) :
    ∃ fuel r, auto_discover_properties fetch seeds fuel = some r ∧ r.Nodup := by
  obtain ⟨fuel, r, hrun, hnd, _⟩ :=
    autoDiscover_terminates hclosed (U.card + 1) seeds.length seeds [] []
      hseed (by intro x hx; cases hx) List.nodup_nil (by simp) (le_refl _)
  exact ⟨fuel, r, hrun, hnd⟩

/-- Witness for the amended C3 at a concrete input: with one seed and a fetch
that always fails, the singleton universe is closed and the crawl terminates
with a duplicate-free discovered list. -/
theorem c3_amended_bfs_terminates_url_dedup_witness :
    ∃ fuel r, auto_discover_properties fetchAllFail [exSeedUrl] fuel = some r
      ∧ r.Nodup :=
  c3_amended_bfs_terminates_url_dedup fetchAllFail [exSeedUrl] {exSeedUrl}
    (by decide)
    (by
      intro u hu vs l hl
      rw [discover_related_error_fst fetchAllFail u vs "network down" rfl] at hl
      cases hl)

/-- C9: every error raised inside the related-links lookup is caught at that
call site — `discover_related_properties` returns an empty related-links list
whenever the fetch of its (normalized) URL raises — and it never propagates to
the BFS traversal: a crawl in which the fetch of `u` raises is identical,
state for state, to the crawl in which `u` instead returns a page with no
links, so only that single URL has its expansion degraded. -/
theorem c9_related_links_failures_contained :
    (∀ (fetch : String → Except String Page) (url : String) (visited : List String)
        (e : String), fetch (normalizeUrl url) = Except.error e →
        (discover_related_properties fetch url visited).1 = [])
    ∧ (∀ (fetch : String → Except String Page) (u e : String),
        fetch u = Except.error e →
        ∀ (fuel : Nat) (q v d : List String),
          autoDiscoverFuel (Function.update fetch u (Except.ok emptyPage)) fuel q v d
            = autoDiscoverFuel fetch fuel q v d) :=
  ⟨discover_related_error_fst, autoDiscover_update⟩

/-- Witness for C9 at a concrete input: with an always-failing fetch, the
related-links list of the seed is empty and the crawl equals the crawl with
the seed degraded to a linkless page. -/
theorem c9_related_links_failures_contained_witness :
    (discover_related_properties fetchAllFail exSeedUrl []).1 = []
    ∧ autoDiscoverFuel (Function.update fetchAllFail exSeedUrl (Except.ok emptyPage)) 3
        [exSeedUrl] [] []
      = autoDiscoverFuel fetchAllFail 3 [exSeedUrl] [] [] :=
  ⟨c9_related_links_failures_contained.1 fetchAllFail exSeedUrl [] "network down" rfl,
   c9_related_links_failures_contained.2 fetchAllFail exSeedUrl "network down" rfl
     3 [exSeedUrl] [] []⟩

end RiseTracker
